import Mathlib

/-!
# Verification of the bird-observation ingestion/cleaning pipeline

Shallow embedding of `data_ingestion.py`: the source loader
(`load_and_combine_data`), the cleaning engine (`initial_data_cleaning`),
the persistence sink (`upload_to_sql`) and the `__main__` driver.

A pandas DataFrame is modelled as a list of column names together with a
list of rows, each row a list of cell values.  A cell value is a string, an
exact rational number (pandas floats are modelled by `ℚ`), a boolean, a
parsed calendar date, or the missing marker (NaN / NaT / None are
conflated, as pandas does for the operations used by the script).
Library calls (`pd.to_datetime`, `pd.to_numeric`, `astype(str)`,
`drop_duplicates`, `pd.concat`, …) are modelled by executable Lean
functions with the semantics the script relies on.
-/

set_option autoImplicit false

namespace BirdPipeline

/-- A cell value of a table.  `missing` stands for NaN / NaT / None. -/
inductive Value where
  | str (s : String)
  | num (q : ℚ)
  | bool (b : Bool)
  | date (d m y : Nat)
  | missing
deriving DecidableEq, Repr

/-- A pandas DataFrame: named columns and rows of cells.  Well-formed
tables (`DF.Wf`) have every row of the same length as the column list. -/
structure DF where
  cols : List String
  rows : List (List Value)
deriving DecidableEq, Repr

/-- Every row has exactly one cell per column. -/
def DF.Wf (df : DF) : Prop :=
  ∀ r ∈ df.rows, r.length = df.cols.length

instance (df : DF) : Decidable df.Wf := by
  unfold DF.Wf; infer_instance

/-- Index of the first column with the given name (`df.columns` lookup). -/
def idxOf? (c : String) : List String → Option Nat
  | [] => none
  | c' :: rest => if c' = c then some 0 else (idxOf? c rest).map (· + 1)

/-- Cell of a row at a column index; missing when out of range. -/
def valAt : Nat → List Value → Value
  | _, [] => Value.missing
  | 0, v :: _ => v
  | n + 1, _ :: r => valAt n r

/-- Replace the cell at a column index by `f` of the old cell. -/
def applyAt (f : Value → Value) : Nat → List Value → List Value
  | _, [] => []
  | 0, v :: r => f v :: r
  | n + 1, v :: r => v :: applyAt f n r

/-- Column-wise assignment `df[c] = df[c].apply f`; identity when the
column does not exist. -/
def DF.mapCol (df : DF) (c : String) (f : Value → Value) : DF :=
  match idxOf? c df.cols with
  | some i => ⟨df.cols, df.rows.map (applyAt f i)⟩
  | none => df

/-- The list of values of a column (`df[c]`); empty when absent. -/
def colVals (df : DF) (c : String) : List Value :=
  match idxOf? c df.cols with
  | some i => df.rows.map (valAt i)
  | none => []

/-- `df[c] = v` for a constant `v`: overwrite the column if it exists,
otherwise append it (pandas column assignment). -/
def DF.setConstCol (df : DF) (c : String) (v : Value) : DF :=
  match idxOf? c df.cols with
  | some i => ⟨df.cols, df.rows.map (applyAt (fun _ => v) i)⟩
  | none => ⟨df.cols ++ [c], df.rows.map (fun r => r ++ [v])⟩

/-- `df.drop_duplicates()` keeps the first occurrence of each row. -/
def dedupAux {α : Type} [DecidableEq α] (seen : List α) : List α → List α
  | [] => []
  | x :: xs => if x ∈ seen then dedupAux seen xs else x :: dedupAux (x :: seen) xs

/-- Exact full-row deduplication keeping first occurrences. -/
def dedupFirst {α : Type} [DecidableEq α] (l : List α) : List α :=
  dedupAux [] l

/-- `df.empty`: true when either axis has length zero. -/
def DF.isEmpty (df : DF) : Bool :=
  df.rows.isEmpty || df.cols.isEmpty

/-! ## Value-level cleaning operations -/

/-- Digit-string to number; `none` unless nonempty and all digits. -/
def charsToNat? (l : List Char) : Option Nat :=
  if l ≠ [] ∧ l.all Char.isDigit then
    some (l.foldl (fun acc c => 10 * acc + (c.toNat - 48)) 0)
  else none

/-- Split a character list on a separator character (model of
`str.split` for one-character separators). -/
def splitOnChar (sep : Char) : List Char → List (List Char)
  | [] => [[]]
  | c :: cs =>
    if c = sep then [] :: splitOnChar sep cs
    else
      match splitOnChar sep cs with
      | [] => [[c]]
      | g :: gs => (c :: g) :: gs

/-- ASCII upper-casing of a string (`str.upper()`). -/
def upperStr (s : String) : String :=
  String.mk (s.data.map Char.toUpper)

/-- Leap-year rule of the Gregorian calendar. -/
def isLeap (y : Nat) : Bool :=
  y % 4 = 0 && (y % 100 ≠ 0 || y % 400 = 0)

/-- Days in a month (1–12). -/
def daysInMonth (m y : Nat) : Nat :=
  if m = 2 then (if isLeap y then 29 else 28)
  else if m = 4 ∨ m = 6 ∨ m = 9 ∨ m = 11 then 30
  else 31

/-- Strict parser for the fixed date format `%d-%m-%Y` used by the
script's `pd.to_datetime` call: day and month of one or two digits, a
four-digit year, dash separated, calendar-valid. -/
def parseDMY (s : String) : Option (Nat × Nat × Nat) :=
  match splitOnChar '-' s.data with
  | [ds, ms, ys] =>
    match charsToNat? ds, charsToNat? ms, charsToNat? ys with
    | some d, some m, some y =>
      if ds.length ≤ 2 ∧ ms.length ≤ 2 ∧ ys.length = 4 ∧
         1 ≤ m ∧ m ≤ 12 ∧ 1 ≤ d ∧ d ≤ daysInMonth m y
      then some (d, m, y) else none
    | _, _, _ => none
  | _ => none

/-- `pd.to_datetime(·, format=..., errors=coerce)` on one cell: strings
are parsed with the fixed format, already-parsed dates pass through,
anything else (numbers, booleans, missing) coerces to NaT (`missing`). -/
def cleanDate : Value → Value
  | Value.str s =>
    match parseDMY s with
    | some (d, m, y) => Value.date d m y
    | none => Value.missing
  | Value.date d m y => Value.date d m y
  | _ => Value.missing

/-- Python `str()` of a cell, as produced by `.astype(str)`: NaN prints
as `nan`, booleans as `True` / `False`. -/
def astypeStr : Value → String
  | Value.str s => s
  | Value.num q => toString q
  | Value.bool b => if b then "True" else "False"
  | Value.date d m y => toString y ++ "-" ++ toString m ++ "-" ++ toString d
  | Value.missing => "nan"

/-- One cell of the flag normalization
`astype(str).str.upper().map(TRUE/FALSE).fillna(False)`. -/
def cleanBool (v : Value) : Value :=
  let s := upperStr (astypeStr v)
  if s = "TRUE" then Value.bool true
  else if s = "FALSE" then Value.bool false
  else Value.bool false

/-- Decimal-literal model of `pd.to_numeric`'s string parsing: optional
sign, integer digits, optional fractional digits; exact rationals stand
in for floats. -/
def parseRatBody? (l : List Char) : Option ℚ :=
  match splitOnChar '.' l with
  | [ip] => (charsToNat? ip).map (fun n => (n : ℚ))
  | [ip, fp] =>
    match charsToNat? ip, charsToNat? fp with
    | some n, some f => some ((n : ℚ) + (f : ℚ) / ((10 : ℚ) ^ fp.length))
    | _, _ => none
  | _ => none

/-- Signed decimal literal: an optional sign followed by the body. -/
def parseRat? (s : String) : Option ℚ :=
  match s.data with
  | '-' :: rest => (parseRatBody? rest).map (fun q => -q)
  | '+' :: rest => parseRatBody? rest
  | l => parseRatBody? l

/-- `pd.to_numeric(·, errors=coerce)` on one cell. -/
def toNumeric? : Value → Option ℚ
  | Value.num q => some q
  | Value.bool b => some (if b then 1 else 0)
  | Value.str s => parseRat? s
  | _ => none

/-- The converted cell: a number on success, NaN on coercion failure. -/
def toNumericV (v : Value) : Value :=
  match toNumeric? v with
  | some q => Value.num q
  | none => Value.missing

/-- `fillna d`: replace the missing marker by a default. -/
def fillna (d : Value) (v : Value) : Value :=
  if v = Value.missing then d else v

/-- Truncation toward zero, the semantics of `.astype(int)` on floats. -/
def ratTrunc (q : ℚ) : ℚ :=
  if 0 ≤ q then (⌊q⌋ : ℚ) else (⌈q⌉ : ℚ)

/-- `.astype(int)` on one cell. -/
def intCast : Value → Value
  | Value.num q => Value.num (ratTrunc q)
  | v => v

/-- `df[c].mean()`: mean of the non-missing (numeric) values. -/
def numOf? : Value → Option ℚ
  | Value.num q => some q
  | _ => none

/-- Mean of the numeric values of a column. -/
def colMean (vs : List Value) : ℚ :=
  ((vs.filterMap numOf?).sum) / (((vs.filterMap numOf?).length : ℚ))

/-! ## The cleaning engine -/

/-- The three boolean flag columns of the script. -/
def boolCols : List String :=
  ["Flyover_Observed", "PIF_Watchlist_Status", "Regional_Stewardship_Status"]

/-- The numeric columns of the script. -/
def numericCols : List String :=
  ["Temperature", "Humidity", "Initial_Three_Min_Cnt", "AcceptedTSN",
   "AOU_Code", "Visit"]

/-- The categorical columns filled with the sentinel `Unknown`. -/
def categoricalCols : List String :=
  ["Sex", "ID_Method", "Distance", "Sky", "Wind", "Disturbance",
   "Common_Name", "Scientific_Name", "Sub_Unit_Code", "Site_Name",
   "Plot_Name", "Observer", "Interval_Length", "NPSTaxonCode",
   "TaxonCode", "Previously_Obs"]

/-- Per-column numeric coercion: convert with `to_numeric`, then fill by
the column's role — counts/visits with `0`, codes with `-1` (both cast to
int), continuous columns with the column mean (or `0` when the converted
column is entirely missing). -/
def cleanNumericCol (df : DF) (c : String) : DF :=
  if c ∈ df.cols then
    let dfc := df.mapCol c toNumericV
    if c = "Initial_Three_Min_Cnt" ∨ c = "Visit" then
      dfc.mapCol c (fun v => intCast (fillna (Value.num 0) v))
    else if c = "AcceptedTSN" ∨ c = "AOU_Code" then
      dfc.mapCol c (fun v => intCast (fillna (Value.num (-1)) v))
    else
      if ¬ (colVals dfc c).all (fun v => decide (v = Value.missing)) then
        dfc.mapCol c (fillna (Value.num (colMean (colVals dfc c))))
      else
        dfc.mapCol c (fillna (Value.num 0))
  else df

/-- The count/visit per-cell pipeline: convert, fill with `0`, int-cast. -/
def countNorm (v : Value) : Value :=
  intCast (fillna (Value.num 0) (toNumericV v))

/-- The code per-cell pipeline: convert, fill with `-1`, int-cast. -/
def codeNorm (v : Value) : Value :=
  intCast (fillna (Value.num (-1)) (toNumericV v))

/-- The continuous-column pipeline on a whole column: convert, then fill
missing entries with the column mean (or `0` when nothing converted). -/
def contNormCol (vs : List Value) : List Value :=
  let w := vs.map toNumericV
  if ¬ w.all (fun v => decide (v = Value.missing)) then
    w.map (fillna (Value.num (colMean w)))
  else w.map (fillna (Value.num 0))

/-- The numeric stage of the engine on one column's values, branching by
the column's role exactly as `cleanNumericCol` does. -/
def numericNormCol (c : String) (vs : List Value) : List Value :=
  if c = "Initial_Three_Min_Cnt" ∨ c = "Visit" then vs.map countNorm
  else if c = "AcceptedTSN" ∨ c = "AOU_Code" then vs.map codeNorm
  else contNormCol vs

/-- One pass of column-wise assignment over a list of columns. -/
def mapCols (names : List String) (f : Value → Value) (df : DF) : DF :=
  names.foldl (fun d n => d.mapCol n f) df

/-- Stage 3: normalize the three flag columns. -/
def cleanBoolCols (df : DF) : DF := mapCols boolCols cleanBool df

/-- Stage 4: coerce the numeric columns. -/
def cleanNumericCols (df : DF) : DF := numericCols.foldl cleanNumericCol df

/-- Stage 5: fill categorical gaps with `Unknown`. -/
def cleanCategoricalCols (df : DF) : DF :=
  mapCols categoricalCols (fillna (Value.str "Unknown")) df

/-- `df[Date].dt.year.fillna(0).astype(int)` on one cell. -/
def yearOf : Value → Value
  | Value.date _ _ y => Value.num (y : ℚ)
  | _ => Value.num 0

/-- Stage 6: derive `Year` from `Date` when no `Year` column exists. -/
def addYear (df : DF) : DF :=
  if "Year" ∈ df.cols then df
  else
    match idxOf? "Date" df.cols with
    | some i => ⟨df.cols ++ ["Year"], df.rows.map (fun r => r ++ [yearOf (valAt i r)])⟩
    | none => df

/-- Stages 2–6 of the cleaning engine, after deduplication. -/
def cleanPipeline (df : DF) : DF :=
  addYear (cleanCategoricalCols (cleanNumericCols (cleanBoolCols
    (df.mapCol "Date" cleanDate))))

/-- The cleaning engine `initial_data_cleaning`.  `df[Date]` is accessed
unconditionally in the script, so a table without a `Date` column raises
(`none`); every other column access is guarded by a membership test. -/
def initial_data_cleaning (df : DF) : Option DF :=
  let df1 : DF := ⟨df.cols, dedupFirst df.rows⟩
  if "Date" ∈ df1.cols then some (cleanPipeline df1) else none

/-! ## The source loader -/

/-- The fixed source files, keyed by habitat category. -/
def forestFile : String := "Bird_Monitoring_Data_FOREST.XLSX"

/-- Filename of the grassland source. -/
def grasslandFile : String := "Bird_Monitoring_Data_GRASSLAND.XLSX"

/-- The fixed mapping of category label to filename, in iteration order. -/
def excelFiles : List (String × String) :=
  [("FOREST", forestFile), ("GRASSLAND", grasslandFile)]

/-- Abstract filesystem: a filename maps to the list of (sheet name,
sheet table) pairs its workbook holds, or to nothing when absent. -/
structure FS where
  read : String → Option (List (String × DF))

/-- Python `str.capitalize`: first character upper-cased, rest lowered. -/
def pyCapitalize (s : String) : String :=
  match s.data with
  | [] => ""
  | ch :: rest => String.mk (ch.toUpper :: rest.map Char.toLower)

/-- Tag one sheet with its habitat category and its sheet name. -/
def tagSheet (locationType sheetName : String) (d : DF) : DF :=
  (d.setConstCol "Location_Type" (Value.str (pyCapitalize locationType))).setConstCol
    "Admin_Unit_Code" (Value.str sheetName)

/-- Load one declared source file: missing files yield no data and a
diagnostic message; present files yield their tagged sheets. -/
def loadOne (fs : FS) (folder : String) (p : String × String) :
    List DF × List String :=
  match fs.read p.2 with
  | none => ([], ["Error: Excel file " ++ p.2 ++ " not found at " ++
      folder ++ "/" ++ p.2])
  | some sheets => (sheets.map (fun sh => tagSheet p.1 sh.1 sh.2), [])

/-- `pd.concat(dfs, ignore_index=True)`: columns are the first-occurrence
union; each row is re-indexed against the union, missing where its table
lacks a column. -/
def concatDFs (dfs : List DF) : DF :=
  let ucols := dedupFirst (dfs.map DF.cols).flatten
  ⟨ucols,
   (dfs.map (fun d => d.rows.map (fun r => ucols.map (fun c =>
     match idxOf? c d.cols with
     | some i => valAt i r
     | none => Value.missing)))).flatten⟩

/-- The loader `load_and_combine_data`: read every declared file that
exists, tag every sheet, concatenate; an empty table plus a notice when
nothing was loaded.  The second component collects the diagnostics the
script prints. -/
def load_and_combine_data (folder : String) (fs : FS) : DF × List String :=
  let results := excelFiles.map (loadOne fs folder)
  let all_data := (results.map Prod.fst).flatten
  let msgs := (results.map Prod.snd).flatten
  if all_data.isEmpty then
    (⟨[], []⟩, msgs ++ ["No data was loaded from Excel files. Please check file names and paths."])
  else (concatDFs all_data, msgs)

/-! ## The persistence sink and the driver -/

/-- The hard-coded connection constants of the script. -/
def pgUsername : String := "postgres"

/-- The hard-coded password. -/
def pgPassword : String := "Roshan@2025"

/-- Host constant. -/
def pgHost : String := "localhost"

/-- Port constant. -/
def pgPort : String := "5432"

/-- Database name constant. -/
def pgDbName : String := "bird_analysis_db"

/-- The connection target as the script prints it on failure: the
password replaced by asterisks. -/
def redactedTarget : String :=
  "postgresql://" ++ pgUsername ++ ":*****@" ++ pgHost ++ ":" ++ pgPort ++
    "/" ++ pgDbName

/-- The diagnostics printed on a failed upload. -/
def uploadFailMessages : List String :=
  ["Error uploading data to PostgreSQL",
   "Please ensure your PostgreSQL server is running and connection details in this script are correct",
   "Attempted connection string (without password shown): " ++ redactedTarget]

/-- Abstract relational store: named tables plus a reachability flag
standing for whether the single write attempt succeeds. -/
structure Db where
  tables : List (String × DF)
  reachable : Bool
deriving DecidableEq

/-- `to_sql(..., if_exists=replace)`: bind the name to the new table,
dropping any previous content under that name. -/
def setTable (ts : List (String × DF)) (n : String) (d : DF) :
    List (String × DF) :=
  match ts with
  | [] => [(n, d)]
  | t :: rest => if t.1 = n then (n, d) :: rest else t :: setTable rest n d

/-- Result of the sink: the store afterwards, the number of write
attempts made, and the operator-visible messages. -/
structure UploadResult where
  db : Db
  attempts : Nat
  messages : List String
deriving DecidableEq

/-- The sink `upload_to_sql`: one attempt to replace the
`bird_observations` table; on failure the store is untouched and the
diagnostics (with the redacted target) are reported; nothing is raised
past the sink and nothing is retried. -/
def upload_to_sql (df : DF) (db : Db) : UploadResult :=
  if db.reachable then
    ⟨⟨setTable db.tables "bird_observations" df, db.reachable⟩, 1,
     ["Data uploaded successfully to PostgreSQL."]⟩
  else ⟨db, 1, uploadFailMessages⟩

/-- Outcome of one `__main__` run. -/
inductive RunResult where
  | noData
  | crashed
  | done (csvBackup : DF) (db : Db)
deriving DecidableEq

/-- The `__main__` driver: load, stop with a notice when the combined
table is empty, otherwise clean, write the CSV backup (the `csvBackup`
component), then upload.  A cleaning failure (missing `Date`) crashes. -/
def runPipeline (folder : String) (fs : FS) (db : Db) : RunResult :=
  let combined := (load_and_combine_data folder fs).1
  if combined.isEmpty then RunResult.noData
  else
    match initial_data_cleaning combined with
    | some cleaned => RunResult.done cleaned (upload_to_sql cleaned db).db
    | none => RunResult.crashed

/-- Substring test on strings (used to state credential redaction). -/
def strContains (hay needle : String) : Bool :=
  (List.range (hay.data.length + 1)).any
    (fun i => needle.data.isPrefixOf (hay.data.drop i))

/-! ## Concrete tables used by scenarios, witnesses and counterexamples -/

/-- A one-row table whose date cell cannot be parsed. -/
def c1df : DF := ⟨["Date"], [[Value.str "not-a-date"]]⟩

/-- Its cleaned form: the unparseable date is the explicit missing
marker, and the derived year is the `0` sentinel. -/
def c1out : DF := ⟨["Date", "Year"], [[Value.missing, Value.num 0]]⟩

/-- Scenario table for the numeric policy: one unparseable temperature
next to the temperatures 10 and 20. -/
def scenario2 : DF :=
  ⟨["Date", "Temperature"],
   [[Value.str "01-01-2023", Value.str "N/A"],
    [Value.str "02-01-2023", Value.num 10],
    [Value.str "03-01-2023", Value.num 20]]⟩

/-- Two raw rows that differ only in the capitalization of a flag token:
distinct before cleaning, identical after boolean normalization. -/
def cex6 : DF :=
  ⟨["Date", "Flyover_Observed"],
   [[Value.str "01-01-2023", Value.str "TRUE"],
    [Value.str "01-01-2023", Value.str "true"]]⟩

/-- A one-row table whose cleaned output has no duplicate rows. -/
def w6df : DF := ⟨["Date"], [[Value.str "05-06-2021"]]⟩

/-- The cleaned form of `w6df`. -/
def w6out : DF := ⟨["Date", "Year"], [[Value.date 5 6 2021, Value.num 2021]]⟩

/-- The sheet of the loader scenario: three rows, one an exact duplicate
of another. -/
def sheet5 : DF :=
  ⟨["Date", "Common_Name"],
   [[Value.str "01-01-2023", Value.str "Crow"],
    [Value.str "01-01-2023", Value.str "Crow"],
    [Value.str "02-01-2023", Value.str "Sparrow"]]⟩

/-- A filesystem holding only the FOREST workbook, with one sheet named
UNIT1; the GRASSLAND file is absent. -/
def fs5 : FS :=
  ⟨fun f => if f = forestFile then some [("UNIT1", sheet5)] else none⟩

/-- A filesystem holding only the GRASSLAND workbook; the FOREST file is
absent. -/
def fs7 : FS :=
  ⟨fun f => if f = grasslandFile then some [("UNIT1", sheet5)] else none⟩

/-- A filesystem with no source files at all. -/
def fsEmpty : FS := ⟨fun _ => none⟩

/-- A small cleaned table for the sink witnesses. -/
def wdf : DF := ⟨["Common_Name"], [[Value.str "Crow"]]⟩

/-- A reachable store with no tables. -/
def dbUp : Db := ⟨[], true⟩

/-- An unreachable store. -/
def dbDown : Db := ⟨[], false⟩

/-! ## Basic lemmas about the table primitives -/

theorem valAt_nil (i : Nat) : valAt i [] = Value.missing := by
  cases i <;> rfl

theorem applyAt_length (f : Value → Value) (i : Nat) (r : List Value) :
    (applyAt f i r).length = r.length := by
  induction r generalizing i with
  | nil => cases i <;> rfl
  | cons v r ih => cases i <;> simp [applyAt, ih]

theorem valAt_applyAt_self (f : Value → Value) (i : Nat) (r : List Value)
    (h : i < r.length) : valAt i (applyAt f i r) = f (valAt i r) := by
  induction r generalizing i with
  | nil => simp at h
  | cons v r ih =>
    cases i with
    | zero => rfl
    | succ n => simpa [applyAt, valAt] using ih n (by simpa using h)

theorem valAt_applyAt_ne (f : Value → Value) (i k : Nat) (r : List Value)
    (h : k ≠ i) : valAt k (applyAt f i r) = valAt k r := by
  induction r generalizing i k with
  | nil => simp [applyAt]
  | cons v r ih =>
    cases i with
    | zero =>
      cases k with
      | zero => exact absurd rfl h
      | succ n => rfl
    | succ m =>
      cases k with
      | zero => rfl
      | succ n => simpa [applyAt, valAt] using ih m n (fun e => h (by omega))

theorem applyAt_eq_self (f : Value → Value) (i : Nat) (r : List Value)
    (h : f (valAt i r) = valAt i r) : applyAt f i r = r := by
  induction r generalizing i with
  | nil => cases i <;> rfl
  | cons v r ih =>
    cases i with
    | zero => simpa [applyAt, valAt] using h
    | succ n => simpa [applyAt, valAt] using ih n h

theorem valAt_append_left (i : Nat) (r t : List Value) (h : i < r.length) :
    valAt i (r ++ t) = valAt i r := by
  induction r generalizing i with
  | nil => simp at h
  | cons v r ih =>
    cases i with
    | zero => rfl
    | succ n => simpa [valAt] using ih n (by simpa using h)

theorem valAt_append_length (r : List Value) (x : Value) :
    valAt r.length (r ++ [x]) = x := by
  induction r with
  | nil => rfl
  | cons v r ih => simpa [valAt] using ih

theorem idxOf?_lt_length {c : String} {l : List String} {i : Nat}
    (h : idxOf? c l = some i) : i < l.length := by
  induction l generalizing i with
  | nil => simp [idxOf?] at h
  | cons c' rest ih =>
    by_cases hc : c' = c
    · simp [idxOf?, hc] at h
      simp [← h]
    · simp [idxOf?, hc] at h
      obtain ⟨j, hj, rfl⟩ := h
      simpa using Nat.succ_lt_succ (ih hj)

theorem idxOf?_getD {c : String} {l : List String} {i : Nat}
    (h : idxOf? c l = some i) : l.getD i "" = c := by
  induction l generalizing i with
  | nil => simp [idxOf?] at h
  | cons c' rest ih =>
    by_cases hc : c' = c
    · simp [idxOf?, hc] at h
      subst h
      simpa using hc
    · simp [idxOf?, hc] at h
      obtain ⟨j, hj, rfl⟩ := h
      simpa using ih hj

theorem idxOf?_isSome_iff {c : String} {l : List String} :
    (idxOf? c l).isSome ↔ c ∈ l := by
  induction l with
  | nil => simp [idxOf?]
  | cons c' rest ih =>
    by_cases hc : c' = c
    · simp [idxOf?, hc]
    · simp only [idxOf?, hc, if_false]
      rw [List.mem_cons]
      cases hio : idxOf? c rest with
      | none =>
        rw [hio] at ih
        simp only [Option.isSome_none, Bool.false_eq_true, false_iff] at ih
        simp [Ne.symm hc, ih]
      | some j =>
        rw [hio] at ih
        simp only [Option.isSome_some, true_iff] at ih
        simp [ih]

theorem idxOf?_eq_none_iff {c : String} {l : List String} :
    idxOf? c l = none ↔ c ∉ l := by
  rw [← idxOf?_isSome_iff]
  cases idxOf? c l <;> simp

theorem idxOf?_ne {c c' : String} {l : List String} {i i' : Nat}
    (h : idxOf? c l = some i) (h' : idxOf? c' l = some i') (hne : c ≠ c') :
    i ≠ i' := by
  intro e
  apply hne
  rw [← idxOf?_getD h, ← idxOf?_getD h', e]

theorem idxOf?_append_left {c : String} {l₁ : List String} (l₂ : List String)
    {i : Nat} (h : idxOf? c l₁ = some i) : idxOf? c (l₁ ++ l₂) = some i := by
  induction l₁ generalizing i with
  | nil => simp [idxOf?] at h
  | cons c' rest ih =>
    by_cases hc : c' = c
    · simp [idxOf?, hc] at h ⊢
      exact h
    · simp [idxOf?, hc] at h ⊢
      obtain ⟨j, hj, rfl⟩ := h
      exact ⟨j, ih hj, rfl⟩

theorem idxOf?_append_right {c : String} {l₁ : List String} (l₂ : List String)
    (h : c ∉ l₁) :
    idxOf? c (l₁ ++ l₂) = (idxOf? c l₂).map (· + l₁.length) := by
  induction l₁ with
  | nil => simp [Option.map_id_fun]
  | cons c' rest ih =>
    have hc : c' ≠ c := fun e => h (by simp [e])
    have hr : c ∉ rest := fun e => h (by simp [e])
    show (if c' = c then some 0
      else (idxOf? c (rest ++ l₂)).map (fun x => x + 1)) =
        (idxOf? c l₂).map (fun x => x + (c' :: rest).length)
    rw [if_neg hc, ih hr]
    cases idxOf? c l₂ with
    | none => rfl
    | some j =>
      simp only [Option.map_map, Option.map_some', Function.comp_apply,
        List.length_cons, Option.some.injEq]
      omega

/-! ## Deduplication lemmas -/

theorem dedupAux_subset {α : Type} [DecidableEq α] (seen : List α)
    (l : List α) : ∀ x ∈ dedupAux seen l, x ∈ l := by
  induction l generalizing seen with
  | nil => simp [dedupAux]
  | cons y ys ih =>
    intro x hx
    by_cases hy : y ∈ seen
    · simp [dedupAux, hy] at hx
      exact List.mem_cons_of_mem y (ih seen x hx)
    · simp [dedupAux, hy] at hx
      rcases hx with rfl | hx
      · exact List.mem_cons_self x ys
      · exact List.mem_cons_of_mem y (ih (y :: seen) x hx)

theorem dedupAux_of_nodup {α : Type} [DecidableEq α] (seen : List α)
    (l : List α) (hn : l.Nodup) (hd : ∀ x ∈ l, x ∉ seen) :
    dedupAux seen l = l := by
  induction l generalizing seen with
  | nil => rfl
  | cons y ys ih =>
    have hy : y ∉ seen := hd y (List.mem_cons_self y ys)
    simp only [dedupAux, hy, if_false]
    congr 1
    apply ih (y :: seen) (List.Nodup.of_cons hn)
    intro x hx
    simp only [List.mem_cons]
    push_neg
    refine ⟨fun e => ?_, hd x (List.mem_cons_of_mem y hx)⟩
    subst e
    exact (List.nodup_cons.mp hn).1 hx

theorem dedupFirst_of_nodup {α : Type} [DecidableEq α] {l : List α}
    (hn : l.Nodup) : dedupFirst l = l :=
  dedupAux_of_nodup [] l hn (by simp)

theorem dedupAux_count_zero {α : Type} [DecidableEq α] {x : α}
    (seen : List α) (l : List α) (hx : x ∈ seen) :
    (dedupAux seen l).count x = 0 := by
  induction l generalizing seen with
  | nil => rfl
  | cons y ys ih =>
    by_cases hy : y ∈ seen
    · simpa [dedupAux, hy] using ih seen hx
    · have hxy : y ≠ x := fun e => hy (e ▸ hx)
      simp [dedupAux, hy, List.count_cons, hxy,
        ih (y :: seen) (List.mem_cons_of_mem y hx)]

theorem dedupAux_count_one {α : Type} [DecidableEq α] {x : α}
    (seen : List α) (l : List α) (hx : x ∈ l) (hs : x ∉ seen) :
    (dedupAux seen l).count x = 1 := by
  induction l generalizing seen with
  | nil => simp at hx
  | cons y ys ih =>
    by_cases hy : y ∈ seen
    · have hxy : x ≠ y := fun e => hs (e ▸ hy)
      rcases List.mem_cons.mp hx with e | hx'
      · exact absurd e hxy
      · simpa [dedupAux, hy] using ih seen hx' hs
    · by_cases exy : y = x
      · subst exy
        simp [dedupAux, hy, List.count_cons,
          dedupAux_count_zero (y :: seen) ys (List.mem_cons_self y seen)]
      · have hx' : x ∈ ys := by
          rcases List.mem_cons.mp hx with e | hx'
          · exact absurd e.symm exy
          · exact hx'
        have hs' : x ∉ y :: seen := by
          simp only [List.mem_cons]
          push_neg
          exact ⟨fun e => exy e.symm, hs⟩
        simp [dedupAux, hy, List.count_cons, exy, ih (y :: seen) hx' hs']

theorem dedupFirst_count_one {α : Type} [DecidableEq α] {x : α}
    {l : List α} (hx : x ∈ l) : (dedupFirst l).count x = 1 :=
  dedupAux_count_one [] l hx (by simp)

/-! ## Column-assignment lemmas -/

theorem cols_mapCol (df : DF) (c : String) (f : Value → Value) :
    (df.mapCol c f).cols = df.cols := by
  unfold DF.mapCol
  cases idxOf? c df.cols <;> rfl

theorem rows_length_mapCol (df : DF) (c : String) (f : Value → Value) :
    (df.mapCol c f).rows.length = df.rows.length := by
  unfold DF.mapCol
  cases idxOf? c df.cols <;> simp

theorem wf_mapCol {df : DF} (c : String) (f : Value → Value) (hwf : df.Wf) :
    (df.mapCol c f).Wf := by
  unfold DF.mapCol
  cases hio : idxOf? c df.cols with
  | none => exact hwf
  | some i =>
    intro r hr
    simp only [List.mem_map] at hr
    obtain ⟨r₀, hr₀, rfl⟩ := hr
    simpa [applyAt_length] using hwf r₀ hr₀

theorem mem_cols_mapCol {df : DF} {c' : String} (c : String)
    (f : Value → Value) : c' ∈ (df.mapCol c f).cols ↔ c' ∈ df.cols := by
  rw [cols_mapCol]

theorem colVals_mapCol_self {df : DF} (c : String) (f : Value → Value)
    (hwf : df.Wf) : colVals (df.mapCol c f) c = (colVals df c).map f := by
  unfold DF.mapCol colVals
  cases hio : idxOf? c df.cols with
  | none => simp [hio]
  | some i =>
    simp only [hio, List.map_map]
    apply List.map_congr_left
    intro r hr
    have hlen : i < r.length := by
      rw [hwf r hr]
      exact idxOf?_lt_length hio
    simp [Function.comp, valAt_applyAt_self f i r hlen]

theorem colVals_mapCol_ne {df : DF} {c c' : String} (f : Value → Value)
    (hne : c' ≠ c) : colVals (df.mapCol c f) c' = colVals df c' := by
  unfold DF.mapCol colVals
  cases hio : idxOf? c df.cols with
  | none => simp
  | some i =>
    simp only
    cases hio' : idxOf? c' df.cols with
    | none => simp
    | some k =>
      simp only [List.map_map]
      apply List.map_congr_left
      intro r hr
      have hki : k ≠ i := idxOf?_ne hio' hio hne
      simp [Function.comp, valAt_applyAt_ne f i k r hki]

theorem mapCol_eq_self {df : DF} {c : String} {f : Value → Value}
    (h : ∀ v ∈ colVals df c, f v = v) : df.mapCol c f = df := by
  unfold DF.mapCol
  cases hio : idxOf? c df.cols with
  | none => rfl
  | some i =>
    have : df.rows.map (applyAt f i) = df.rows := by
      conv_rhs => rw [← List.map_id df.rows]
      apply List.map_congr_left
      intro r hr
      apply applyAt_eq_self
      apply h
      unfold colVals
      rw [hio]
      exact List.mem_map_of_mem (valAt i) hr
    simp [this]

/-! ## Lemmas about passes over lists of columns -/

theorem cols_mapCols (names : List String) (f : Value → Value) (df : DF) :
    (mapCols names f df).cols = df.cols := by
  induction names generalizing df with
  | nil => rfl
  | cons n rest ih => simp [mapCols, List.foldl_cons] at ih ⊢; rw [ih, cols_mapCol]

theorem wf_mapCols (names : List String) (f : Value → Value) {df : DF}
    (hwf : df.Wf) : (mapCols names f df).Wf := by
  induction names generalizing df with
  | nil => exact hwf
  | cons n rest ih => exact ih (wf_mapCol n f hwf)

theorem rows_length_mapCols (names : List String) (f : Value → Value)
    (df : DF) : (mapCols names f df).rows.length = df.rows.length := by
  induction names generalizing df with
  | nil => rfl
  | cons n rest ih =>
    simp only [mapCols, List.foldl_cons] at ih ⊢
    rw [ih, rows_length_mapCol]

theorem colVals_mapCols_notmem {names : List String} {c : String}
    (f : Value → Value) (df : DF) (h : c ∉ names) :
    colVals (mapCols names f df) c = colVals df c := by
  induction names generalizing df with
  | nil => rfl
  | cons n rest ih =>
    have hn : c ≠ n := fun e => h (by simp [e])
    have hr : c ∉ rest := fun e => h (by simp [e])
    simp only [mapCols, List.foldl_cons] at ih ⊢
    rw [ih _ hr, colVals_mapCol_ne f hn]

theorem colVals_mapCols_mem {names : List String} {c : String}
    (f : Value → Value) {df : DF} (hwf : df.Wf) (hnd : names.Nodup)
    (hc : c ∈ names) :
    colVals (mapCols names f df) c = (colVals df c).map f := by
  induction names generalizing df with
  | nil => simp at hc
  | cons n rest ih =>
    simp only [mapCols, List.foldl_cons]
    by_cases he : c = n
    · subst he
      have hrest : c ∉ rest := (List.nodup_cons.mp hnd).1
      rw [show rest.foldl (fun d n => d.mapCol n f) (df.mapCol c f) =
        mapCols rest f (df.mapCol c f) from rfl]
      rw [colVals_mapCols_notmem f _ hrest, colVals_mapCol_self c f hwf]
    · have hrest : c ∈ rest := by
        rcases List.mem_cons.mp hc with e | hr
        · exact absurd e he
        · exact hr
      rw [show rest.foldl (fun d n => d.mapCol n f) (df.mapCol n f) =
        mapCols rest f (df.mapCol n f) from rfl]
      rw [ih (wf_mapCol n f hwf) (List.Nodup.of_cons hnd) hrest,
        colVals_mapCol_ne f he]

theorem mapCols_eq_self {names : List String} {f : Value → Value} {df : DF}
    (h : ∀ n ∈ names, ∀ v ∈ colVals df n, f v = v) : mapCols names f df = df := by
  induction names with
  | nil => rfl
  | cons n rest ih =>
    simp only [mapCols, List.foldl_cons]
    rw [show df.mapCol n f = df from
      mapCol_eq_self (h n (List.mem_cons_self n rest))]
    exact ih (fun n' hn' => h n' (List.mem_cons_of_mem n hn'))

/-! ## Lemmas about the numeric stage -/

theorem colVals_eq_nil_of_notmem {df : DF} {c : String} (h : c ∉ df.cols) :
    colVals df c = [] := by
  unfold colVals
  rw [idxOf?_eq_none_iff.mpr h]

theorem numericNormCol_nil (c : String) : numericNormCol c [] = [] := by
  unfold numericNormCol contNormCol
  split <;> simp

theorem cols_cleanNumericCol (df : DF) (c : String) :
    (cleanNumericCol df c).cols = df.cols := by
  unfold cleanNumericCol
  split
  · split
    · rw [cols_mapCol, cols_mapCol]
    · split
      · rw [cols_mapCol, cols_mapCol]
      · dsimp only
        split <;> rw [cols_mapCol, cols_mapCol]
  · rfl

theorem rows_length_cleanNumericCol (df : DF) (c : String) :
    (cleanNumericCol df c).rows.length = df.rows.length := by
  unfold cleanNumericCol
  split
  · split
    · rw [rows_length_mapCol, rows_length_mapCol]
    · split
      · rw [rows_length_mapCol, rows_length_mapCol]
      · dsimp only
        split <;> rw [rows_length_mapCol, rows_length_mapCol]
  · rfl

theorem wf_cleanNumericCol {df : DF} (c : String) (hwf : df.Wf) :
    (cleanNumericCol df c).Wf := by
  unfold cleanNumericCol
  split
  · split
    · exact wf_mapCol c _ (wf_mapCol c _ hwf)
    · split
      · exact wf_mapCol c _ (wf_mapCol c _ hwf)
      · dsimp only
        split <;> exact wf_mapCol c _ (wf_mapCol c _ hwf)
  · exact hwf

theorem colVals_cleanNumericCol_ne {df : DF} {c c' : String}
    (hne : c' ≠ c) : colVals (cleanNumericCol df c) c' = colVals df c' := by
  unfold cleanNumericCol
  split
  · split
    · rw [colVals_mapCol_ne _ hne, colVals_mapCol_ne _ hne]
    · split
      · rw [colVals_mapCol_ne _ hne, colVals_mapCol_ne _ hne]
      · dsimp only
        split <;> rw [colVals_mapCol_ne _ hne, colVals_mapCol_ne _ hne]
  · rfl

theorem colVals_cleanNumericCol_self {df : DF} (c : String) (hwf : df.Wf) :
    colVals (cleanNumericCol df c) c = numericNormCol c (colVals df c) := by
  by_cases hc : c ∈ df.cols
  · have hconv : colVals (df.mapCol c toNumericV) c =
        (colVals df c).map toNumericV := colVals_mapCol_self c _ hwf
    have hwfc : (df.mapCol c toNumericV).Wf := wf_mapCol c _ hwf
    unfold cleanNumericCol numericNormCol
    rw [if_pos hc]
    by_cases h1 : c = "Initial_Three_Min_Cnt" ∨ c = "Visit"
    · rw [if_pos h1, if_pos h1, colVals_mapCol_self c _ hwfc, hconv,
        List.map_map]
      rfl
    · rw [if_neg h1, if_neg h1]
      by_cases h2 : c = "AcceptedTSN" ∨ c = "AOU_Code"
      · rw [if_pos h2, if_pos h2, colVals_mapCol_self c _ hwfc, hconv,
          List.map_map]
        rfl
      · rw [if_neg h2, if_neg h2]
        unfold contNormCol
        dsimp only
        rw [hconv]
        split
        · rw [colVals_mapCol_self c _ hwfc, hconv]
        · rw [colVals_mapCol_self c _ hwfc, hconv]
  · rw [show cleanNumericCol df c = df by unfold cleanNumericCol; rw [if_neg hc]]
    rw [colVals_eq_nil_of_notmem hc, numericNormCol_nil]

theorem cols_cleanNumericCols (df : DF) :
    (cleanNumericCols df).cols = df.cols := by
  show (numericCols.foldl cleanNumericCol df).cols = df.cols
  induction numericCols generalizing df with
  | nil => rfl
  | cons n rest ih =>
    simp only [List.foldl_cons]
    rw [ih, cols_cleanNumericCol]

theorem rows_length_cleanNumericCols (df : DF) :
    (cleanNumericCols df).rows.length = df.rows.length := by
  show (numericCols.foldl cleanNumericCol df).rows.length = df.rows.length
  induction numericCols generalizing df with
  | nil => rfl
  | cons n rest ih =>
    simp only [List.foldl_cons]
    rw [ih, rows_length_cleanNumericCol]

theorem wf_cleanNumericCols {df : DF} (hwf : df.Wf) :
    (cleanNumericCols df).Wf := by
  show (numericCols.foldl cleanNumericCol df).Wf
  induction numericCols generalizing df with
  | nil => exact hwf
  | cons n rest ih =>
    simp only [List.foldl_cons]
    exact ih (wf_cleanNumericCol n hwf)

theorem colVals_foldl_cnc_notmem {names : List String} {c : String}
    (df : DF) (h : c ∉ names) :
    colVals (names.foldl cleanNumericCol df) c = colVals df c := by
  induction names generalizing df with
  | nil => rfl
  | cons n rest ih =>
    have hn : c ≠ n := fun e => h (by simp [e])
    have hr : c ∉ rest := fun e => h (by simp [e])
    simp only [List.foldl_cons]
    rw [ih _ hr, colVals_cleanNumericCol_ne hn]

theorem colVals_foldl_cnc_mem {names : List String} {c : String}
    {df : DF} (hwf : df.Wf) (hnd : names.Nodup) (hc : c ∈ names) :
    colVals (names.foldl cleanNumericCol df) c =
      numericNormCol c (colVals df c) := by
  induction names generalizing df with
  | nil => simp at hc
  | cons n rest ih =>
    simp only [List.foldl_cons]
    by_cases he : c = n
    · subst he
      have hrest : c ∉ rest := (List.nodup_cons.mp hnd).1
      rw [colVals_foldl_cnc_notmem _ hrest, colVals_cleanNumericCol_self c hwf]
    · have hrest : c ∈ rest := by
        rcases List.mem_cons.mp hc with e | hr
        · exact absurd e he
        · exact hr
      rw [ih (wf_cleanNumericCol n hwf) (List.Nodup.of_cons hnd) hrest,
        colVals_cleanNumericCol_ne he]

theorem colVals_cleanNumericCols_mem {c : String} {df : DF} (hwf : df.Wf)
    (hc : c ∈ numericCols) :
    colVals (cleanNumericCols df) c = numericNormCol c (colVals df c) :=
  colVals_foldl_cnc_mem hwf (by decide) hc

theorem colVals_cleanNumericCols_notmem {c : String} (df : DF)
    (h : c ∉ numericCols) :
    colVals (cleanNumericCols df) c = colVals df c :=
  colVals_foldl_cnc_notmem df h

/-! ## Lemmas about the Year stage -/

theorem cols_addYear {df : DF} (hD : "Date" ∈ df.cols) :
    (addYear df).cols =
      if "Year" ∈ df.cols then df.cols else df.cols ++ ["Year"] := by
  unfold addYear
  by_cases hY : "Year" ∈ df.cols
  · simp [hY]
  · obtain ⟨i, hi⟩ := Option.isSome_iff_exists.mp (idxOf?_isSome_iff.mpr hD)
    simp [hY, hi]

theorem rows_length_addYear (df : DF) :
    (addYear df).rows.length = df.rows.length := by
  unfold addYear
  split
  · rfl
  · split <;> simp

theorem wf_addYear {df : DF} (hwf : df.Wf) : (addYear df).Wf := by
  unfold addYear
  split
  · exact hwf
  · split
    · intro r hr
      simp only [List.mem_map] at hr
      obtain ⟨r₀, hr₀, rfl⟩ := hr
      simp [hwf r₀ hr₀]
    · exact hwf

theorem mem_cols_addYear {df : DF} {c : String} (hc : c ∈ df.cols) :
    c ∈ (addYear df).cols := by
  unfold addYear
  split
  · exact hc
  · split
    · simp [hc]
    · exact hc

theorem year_mem_cols_addYear {df : DF} (hD : "Date" ∈ df.cols) :
    "Year" ∈ (addYear df).cols := by
  rw [cols_addYear hD]
  split
  · assumption
  · simp

theorem addYear_eq_self {df : DF} (hY : "Year" ∈ df.cols) :
    addYear df = df := by
  unfold addYear
  rw [if_pos hY]

theorem colVals_addYear_mem {df : DF} {c : String} (hwf : df.Wf)
    (hc : c ∈ df.cols) : colVals (addYear df) c = colVals df c := by
  unfold addYear
  by_cases hY : "Year" ∈ df.cols
  · rw [if_pos hY]
  · rw [if_neg hY]
    cases hio : idxOf? "Date" df.cols with
    | none => rfl
    | some i =>
      obtain ⟨k, hk⟩ := Option.isSome_iff_exists.mp (idxOf?_isSome_iff.mpr hc)
      unfold colVals
      simp only [idxOf?_append_left ["Year"] hk, hk, List.map_map]
      apply List.map_congr_left
      intro r hr
      have : k < r.length := by
        rw [hwf r hr]
        exact idxOf?_lt_length hk
      simp [Function.comp, valAt_append_left _ _ _ this]

theorem colVals_addYear_year {df : DF} (hwf : df.Wf)
    (hY : "Year" ∉ df.cols) (hD : "Date" ∈ df.cols) :
    colVals (addYear df) "Year" = (colVals df "Date").map yearOf := by
  unfold addYear
  rw [if_neg hY]
  obtain ⟨i, hi⟩ := Option.isSome_iff_exists.mp (idxOf?_isSome_iff.mpr hD)
  rw [hi]
  unfold colVals
  rw [idxOf?_append_right ["Year"] hY]
  simp only [show idxOf? "Year" ["Year"] = some 0 from rfl, Option.map_some',
    Nat.zero_add, hi, List.map_map]
  apply List.map_congr_left
  intro r hr
  have hlen : r.length = df.cols.length := hwf r hr
  simp [Function.comp, ← hlen, valAt_append_length]

/-! ## Disjointness of the stage column lists -/

theorem boolCols_facts : ∀ c ∈ boolCols,
    c ∉ numericCols ∧ c ∉ categoricalCols ∧ c ≠ "Date" ∧ c ≠ "Year" := by
  decide

theorem numericCols_facts : ∀ c ∈ numericCols,
    c ∉ boolCols ∧ c ∉ categoricalCols ∧ c ≠ "Date" ∧ c ≠ "Year" := by
  decide

theorem categoricalCols_facts : ∀ c ∈ categoricalCols,
    c ∉ boolCols ∧ c ∉ numericCols ∧ c ≠ "Date" ∧ c ≠ "Year" := by
  decide

theorem date_facts :
    "Date" ∉ boolCols ∧ "Date" ∉ numericCols ∧ "Date" ∉ categoricalCols := by
  decide

/-! ## Forward characterization of the cleaning pipeline -/

theorem colVals_addYear_other {df : DF} {c : String} (hwf : df.Wf)
    (hcY : c ≠ "Year") : colVals (addYear df) c = colVals df c := by
  by_cases hc : c ∈ df.cols
  · exact colVals_addYear_mem hwf hc
  · rw [colVals_eq_nil_of_notmem hc]
    apply colVals_eq_nil_of_notmem
    unfold addYear
    split
    · exact hc
    · split
      · simp [hc, hcY]
      · exact hc

theorem cols_cleanBoolCols (df : DF) : (cleanBoolCols df).cols = df.cols :=
  cols_mapCols boolCols cleanBool df

theorem cols_cleanCategoricalCols (df : DF) :
    (cleanCategoricalCols df).cols = df.cols :=
  cols_mapCols categoricalCols (fillna (Value.str "Unknown")) df

theorem cols_stages (df : DF) :
    (cleanCategoricalCols (cleanNumericCols (cleanBoolCols
      (df.mapCol "Date" cleanDate)))).cols = df.cols := by
  rw [cols_cleanCategoricalCols, cols_cleanNumericCols, cols_cleanBoolCols,
    cols_mapCol]

theorem wf_stages {df : DF} (hwf : df.Wf) :
    (cleanCategoricalCols (cleanNumericCols (cleanBoolCols
      (df.mapCol "Date" cleanDate)))).Wf := by
  have h1 := wf_mapCol "Date" cleanDate hwf
  have h2 := wf_mapCols boolCols cleanBool h1
  have h3 := wf_cleanNumericCols h2
  exact wf_mapCols categoricalCols (fillna (Value.str "Unknown")) h3

theorem cols_cleanPipeline {df : DF} (hD : "Date" ∈ df.cols) :
    (cleanPipeline df).cols =
      if "Year" ∈ df.cols then df.cols else df.cols ++ ["Year"] := by
  unfold cleanPipeline
  rw [cols_addYear (by rw [cols_stages]; exact hD), cols_stages]

theorem wf_cleanPipeline {df : DF} (hwf : df.Wf) : (cleanPipeline df).Wf :=
  wf_addYear (wf_stages hwf)

theorem rows_length_cleanPipeline (df : DF) :
    (cleanPipeline df).rows.length = df.rows.length := by
  unfold cleanPipeline cleanCategoricalCols cleanBoolCols
  rw [rows_length_addYear, rows_length_mapCols, rows_length_cleanNumericCols,
    rows_length_mapCols, rows_length_mapCol]

theorem colVals_cleanPipeline_date {df : DF} (hwf : df.Wf) :
    colVals (cleanPipeline df) "Date" = (colVals df "Date").map cleanDate := by
  unfold cleanPipeline
  rw [colVals_addYear_other (wf_stages hwf) (by decide)]
  unfold cleanCategoricalCols cleanBoolCols
  rw [
    colVals_mapCols_notmem _ _ date_facts.2.2,
    colVals_cleanNumericCols_notmem _ date_facts.2.1,
    colVals_mapCols_notmem _ _ date_facts.1,
    colVals_mapCol_self _ _ hwf]

theorem colVals_cleanPipeline_bool {df : DF} {c : String} (hwf : df.Wf)
    (hc : c ∈ boolCols) :
    colVals (cleanPipeline df) c = (colVals df c).map cleanBool := by
  obtain ⟨hnum, hcat, hdate, hyear⟩ := boolCols_facts c hc
  unfold cleanPipeline
  rw [colVals_addYear_other (wf_stages hwf) hyear]
  unfold cleanCategoricalCols cleanBoolCols
  rw [colVals_mapCols_notmem _ _ hcat,
    colVals_cleanNumericCols_notmem _ hnum,
    colVals_mapCols_mem cleanBool (wf_mapCol "Date" cleanDate hwf)
      (by decide) hc,
    colVals_mapCol_ne _ hdate]

theorem colVals_cleanPipeline_numeric {df : DF} {c : String} (hwf : df.Wf)
    (hc : c ∈ numericCols) :
    colVals (cleanPipeline df) c = numericNormCol c (colVals df c) := by
  obtain ⟨hbool, hcat, hdate, hyear⟩ := numericCols_facts c hc
  unfold cleanPipeline
  rw [colVals_addYear_other (wf_stages hwf) hyear]
  unfold cleanCategoricalCols cleanBoolCols
  rw [colVals_mapCols_notmem _ _ hcat,
    colVals_cleanNumericCols_mem
      (wf_mapCols boolCols cleanBool (wf_mapCol "Date" cleanDate hwf)) hc,
    colVals_mapCols_notmem _ _ hbool,
    colVals_mapCol_ne _ hdate]

theorem colVals_cleanPipeline_categorical {df : DF} {c : String}
    (hwf : df.Wf) (hc : c ∈ categoricalCols) :
    colVals (cleanPipeline df) c =
      (colVals df c).map (fillna (Value.str "Unknown")) := by
  obtain ⟨hbool, hnum, hdate, hyear⟩ := categoricalCols_facts c hc
  unfold cleanPipeline
  rw [colVals_addYear_other (wf_stages hwf) hyear]
  unfold cleanCategoricalCols cleanBoolCols
  rw [colVals_mapCols_mem (fillna (Value.str "Unknown"))
      (wf_cleanNumericCols
        (wf_mapCols boolCols cleanBool (wf_mapCol "Date" cleanDate hwf)))
      (by decide) hc,
    colVals_cleanNumericCols_notmem _ hnum,
    colVals_mapCols_notmem _ _ hbool,
    colVals_mapCol_ne _ hdate]

theorem colVals_cleanPipeline_year {df : DF} (hwf : df.Wf)
    (hY : "Year" ∉ df.cols) (hD : "Date" ∈ df.cols) :
    colVals (cleanPipeline df) "Year" =
      ((colVals df "Date").map cleanDate).map yearOf := by
  unfold cleanPipeline
  rw [colVals_addYear_year (wf_stages hwf)
      (by rw [cols_stages]; exact hY) (by rw [cols_stages]; exact hD)]
  unfold cleanCategoricalCols cleanBoolCols
  rw [colVals_mapCols_notmem _ _ date_facts.2.2,
    colVals_cleanNumericCols_notmem _ date_facts.2.1,
    colVals_mapCols_notmem _ _ date_facts.1,
    colVals_mapCol_self _ _ hwf]

/-! ## The engine's success condition -/

theorem initial_data_cleaning_eq_some {df : DF} {out : DF} :
    initial_data_cleaning df = some out ↔
      "Date" ∈ df.cols ∧ out = cleanPipeline ⟨df.cols, dedupFirst df.rows⟩ := by
  unfold initial_data_cleaning
  by_cases hD : "Date" ∈ df.cols
  · simp [hD, eq_comm]
  · simp [hD]

theorem initial_data_cleaning_isSome_iff {df : DF} :
    (initial_data_cleaning df).isSome ↔ "Date" ∈ df.cols := by
  unfold initial_data_cleaning
  by_cases hD : "Date" ∈ df.cols
  · simp [hD]
  · simp [hD]

theorem wf_dedupDF {df : DF} (hwf : df.Wf) :
    (⟨df.cols, dedupFirst df.rows⟩ : DF).Wf := by
  intro r hr
  exact hwf r (dedupAux_subset [] df.rows r hr)

/-! ## Per-value fixed-point lemmas -/

theorem cleanDate_idem (v : Value) : cleanDate (cleanDate v) = cleanDate v := by
  cases v with
  | str s =>
    cases h : parseDMY s with
    | none => simp [cleanDate, h]
    | some t => obtain ⟨d, m, y⟩ := t; simp [cleanDate, h]
  | num q => rfl
  | bool b => rfl
  | date d m y => rfl
  | missing => rfl

theorem cleanBool_bool (b : Bool) : cleanBool (Value.bool b) = Value.bool b := by
  cases b <;> decide

theorem cleanBool_is_bool (v : Value) : ∃ b, cleanBool v = Value.bool b := by
  unfold cleanBool
  dsimp only
  split
  · exact ⟨true, rfl⟩
  · split
    · exact ⟨false, rfl⟩
    · exact ⟨false, rfl⟩

theorem cleanBool_idem (v : Value) : cleanBool (cleanBool v) = cleanBool v := by
  obtain ⟨b, hb⟩ := cleanBool_is_bool v
  rw [hb, cleanBool_bool]

theorem fillna_fillna (d v : Value) : fillna d (fillna d v) = fillna d v := by
  unfold fillna
  by_cases hv : v = Value.missing
  · simp only [hv, if_pos rfl]
    split <;> simp_all
  · rw [if_neg hv, if_neg hv]

theorem fillna_of_ne {d v : Value} (hv : v ≠ Value.missing) :
    fillna d v = v := by
  unfold fillna
  rw [if_neg hv]

theorem fillna_not_missing {d v : Value} (hd : d ≠ Value.missing) :
    fillna d v ≠ Value.missing := by
  unfold fillna
  split
  · exact hd
  · assumption

theorem toNumericV_cases (v : Value) :
    (∃ q, toNumericV v = Value.num q) ∨ toNumericV v = Value.missing := by
  unfold toNumericV
  cases toNumeric? v with
  | none => exact Or.inr rfl
  | some q => exact Or.inl ⟨q, rfl⟩

theorem toNumericV_num (q : ℚ) : toNumericV (Value.num q) = Value.num q := rfl

theorem ratTrunc_is_int (q : ℚ) : ∃ n : ℤ, ratTrunc q = (n : ℚ) := by
  unfold ratTrunc
  split
  · exact ⟨⌊q⌋, rfl⟩
  · exact ⟨⌈q⌉, rfl⟩

theorem ratTrunc_intCast (n : ℤ) : ratTrunc ((n : ℤ) : ℚ) = (n : ℚ) := by
  unfold ratTrunc
  split
  · rw [Int.floor_intCast]
  · rw [Int.ceil_intCast]

theorem intCast_fillna_toNumericV_int (d : ℚ) (v : Value) :
    ∃ n : ℤ, intCast (fillna (Value.num d) (toNumericV v)) = Value.num (n : ℚ) := by
  rcases toNumericV_cases v with ⟨q, hq⟩ | hm
  · rw [hq, fillna_of_ne (by simp)]
    obtain ⟨n, hn⟩ := ratTrunc_is_int q
    exact ⟨n, by simp [intCast, hn]⟩
  · rw [hm]
    rw [show fillna (Value.num d) Value.missing = Value.num d from rfl]
    obtain ⟨n, hn⟩ := ratTrunc_is_int d
    exact ⟨n, by simp [intCast, hn]⟩

theorem countNorm_int (v : Value) :
    ∃ n : ℤ, countNorm v = Value.num (n : ℚ) :=
  intCast_fillna_toNumericV_int 0 v

theorem codeNorm_int (v : Value) :
    ∃ n : ℤ, codeNorm v = Value.num (n : ℚ) :=
  intCast_fillna_toNumericV_int (-1) v

theorem contNormCol_mem_num {l : List Value} :
    ∀ v ∈ contNormCol l, ∃ q, v = Value.num q := by
  unfold contNormCol
  dsimp only
  intro v hv
  have key : ∀ (d : ℚ) (u : Value), fillna (Value.num d) (toNumericV u) =
      Value.num d ∨ ∃ q, fillna (Value.num d) (toNumericV u) = Value.num q := by
    intro d u
    rcases toNumericV_cases u with ⟨q, hq⟩ | hm
    · exact Or.inr ⟨q, by rw [hq, fillna_of_ne (by simp)]⟩
    · exact Or.inl (by rw [hm]; unfold fillna; rw [if_pos rfl])
  split at hv <;>
  · simp only [List.mem_map] at hv
    obtain ⟨u, ⟨u₀, hu₀, rfl⟩, rfl⟩ := hv
    rcases key _ u₀ with h | ⟨q, h⟩
    · exact ⟨_, h⟩
    · exact ⟨q, h⟩

/-! ## The numeric stage is the identity on normalized columns -/

theorem cleanNumericCol_eq_self {df : DF} {c : String}
    (hnum : ∀ v ∈ colVals df c, toNumericV v = v ∧ v ≠ Value.missing)
    (hint : (c = "Initial_Three_Min_Cnt" ∨ c = "Visit" ∨
      c = "AcceptedTSN" ∨ c = "AOU_Code") →
      ∀ v ∈ colVals df c, intCast v = v) :
    cleanNumericCol df c = df := by
  by_cases hc : c ∈ df.cols
  · unfold cleanNumericCol
    rw [if_pos hc]
    have hdfc : df.mapCol c toNumericV = df :=
      mapCol_eq_self (fun v hv => (hnum v hv).1)
    rw [hdfc]
    by_cases h1 : c = "Initial_Three_Min_Cnt" ∨ c = "Visit"
    · rw [if_pos h1]
      apply mapCol_eq_self
      intro v hv
      rw [fillna_of_ne (hnum v hv).2]
      exact hint (by tauto) v hv
    · rw [if_neg h1]
      by_cases h2 : c = "AcceptedTSN" ∨ c = "AOU_Code"
      · rw [if_pos h2]
        apply mapCol_eq_self
        intro v hv
        rw [fillna_of_ne (hnum v hv).2]
        exact hint (by tauto) v hv
      · rw [if_neg h2]
        split <;>
        · apply mapCol_eq_self
          intro v hv
          exact fillna_of_ne (hnum v hv).2
  · unfold cleanNumericCol
    rw [if_neg hc]

theorem foldl_cnc_eq_self {names : List String} {df : DF}
    (h : ∀ c ∈ names,
      (∀ v ∈ colVals df c, toNumericV v = v ∧ v ≠ Value.missing) ∧
      ((c = "Initial_Three_Min_Cnt" ∨ c = "Visit" ∨
        c = "AcceptedTSN" ∨ c = "AOU_Code") →
        ∀ v ∈ colVals df c, intCast v = v)) :
    names.foldl cleanNumericCol df = df := by
  induction names with
  | nil => rfl
  | cons n rest ih =>
    simp only [List.foldl_cons]
    rw [cleanNumericCol_eq_self (h n (List.mem_cons_self n rest)).1
      (h n (List.mem_cons_self n rest)).2]
    exact ih (fun c hc => h c (List.mem_cons_of_mem n hc))

/-! ## Idempotence of the post-dedup pipeline -/

set_option maxHeartbeats 1000000 in
theorem cleanPipeline_idem {df : DF} (hwf : df.Wf) (hD : "Date" ∈ df.cols) :
    cleanPipeline (cleanPipeline df) = cleanPipeline df := by
  obtain ⟨out, hout⟩ : ∃ o, o = cleanPipeline df := ⟨_, rfl⟩
  rw [← hout]
  have hwfo : out.Wf := hout ▸ wf_cleanPipeline hwf
  have hDo : "Date" ∈ out.cols := by
    rw [hout, cols_cleanPipeline hD]
    split
    · exact hD
    · simp [hD]
  have hYo : "Year" ∈ out.cols := by
    rw [hout]
    unfold cleanPipeline
    exact year_mem_cols_addYear (by rw [cols_stages]; exact hD)
  -- stage 2 is the identity on `out`
  have hdate : out.mapCol "Date" cleanDate = out := by
    apply mapCol_eq_self
    intro v hv
    rw [hout, colVals_cleanPipeline_date hwf] at hv
    simp only [List.mem_map] at hv
    obtain ⟨u, _, rfl⟩ := hv
    exact cleanDate_idem u
  -- stage 3 is the identity on `out`
  have hbool : cleanBoolCols out = out := by
    apply mapCols_eq_self
    intro n hn v hv
    rw [hout, colVals_cleanPipeline_bool hwf hn] at hv
    simp only [List.mem_map] at hv
    obtain ⟨u, _, rfl⟩ := hv
    exact cleanBool_idem u
  -- stage 4 is the identity on `out`
  have hnumeric : cleanNumericCols out = out := by
    apply foldl_cnc_eq_self
    intro c hc
    have hcv : colVals out c = numericNormCol c (colVals df c) := by
      rw [hout, colVals_cleanPipeline_numeric hwf hc]
    constructor
    · intro v hv
      rw [hcv] at hv
      unfold numericNormCol at hv
      split at hv
      · simp only [List.mem_map] at hv
        obtain ⟨u, _, rfl⟩ := hv
        obtain ⟨n, hn⟩ := countNorm_int u
        rw [hn]
        exact ⟨toNumericV_num _, by simp⟩
      · split at hv
        · simp only [List.mem_map] at hv
          obtain ⟨u, _, rfl⟩ := hv
          obtain ⟨n, hn⟩ := codeNorm_int u
          rw [hn]
          exact ⟨toNumericV_num _, by simp⟩
        · obtain ⟨q, hq⟩ := contNormCol_mem_num v hv
          rw [hq]
          exact ⟨toNumericV_num _, by simp⟩
    · intro hrole v hv
      rw [hcv] at hv
      unfold numericNormCol at hv
      have hcount : (c = "Initial_Three_Min_Cnt" ∨ c = "Visit") ∨
          (c = "AcceptedTSN" ∨ c = "AOU_Code") := by tauto
      rcases hcount with h | h
      · rw [if_pos h] at hv
        simp only [List.mem_map] at hv
        obtain ⟨u, _, rfl⟩ := hv
        obtain ⟨n, hn⟩ := countNorm_int u
        rw [hn]
        show Value.num (ratTrunc ((n : ℤ) : ℚ)) = Value.num ((n : ℤ) : ℚ)
        rw [ratTrunc_intCast]
      · have hnc : ¬(c = "Initial_Three_Min_Cnt" ∨ c = "Visit") := by
          rcases h with h | h <;> subst h <;> decide
        rw [if_neg hnc, if_pos h] at hv
        simp only [List.mem_map] at hv
        obtain ⟨u, _, rfl⟩ := hv
        obtain ⟨n, hn⟩ := codeNorm_int u
        rw [hn]
        show Value.num (ratTrunc ((n : ℤ) : ℚ)) = Value.num ((n : ℤ) : ℚ)
        rw [ratTrunc_intCast]
  -- stage 5 is the identity on `out`
  have hcat : cleanCategoricalCols out = out := by
    apply mapCols_eq_self
    intro n hn v hv
    rw [hout, colVals_cleanPipeline_categorical hwf hn] at hv
    simp only [List.mem_map] at hv
    obtain ⟨u, _, rfl⟩ := hv
    exact fillna_fillna _ u
  -- stage 6 is the identity on `out`
  have hyear : addYear out = out := addYear_eq_self hYo
  show addYear (cleanCategoricalCols (cleanNumericCols (cleanBoolCols
    (out.mapCol "Date" cleanDate)))) = out
  rw [hdate, hbool, hnumeric, hcat, hyear]

/-! ## Loader and sink lemmas -/

theorem load_empty_of_missing {folder : String} {fs : FS}
    (h1 : fs.read forestFile = none) (h2 : fs.read grasslandFile = none) :
    load_and_combine_data folder fs = (⟨[], []⟩,
      ["Error: Excel file " ++ forestFile ++ " not found at " ++
        folder ++ "/" ++ forestFile,
       "Error: Excel file " ++ grasslandFile ++ " not found at " ++
        folder ++ "/" ++ grasslandFile,
       "No data was loaded from Excel files. Please check file names and paths."]) := by
  unfold load_and_combine_data excelFiles loadOne
  simp only [List.map_cons, List.map_nil]
  rw [h1, h2]
  rfl

theorem load_forest_only {folder : String} {fs : FS}
    {sheets : List (String × DF)}
    (h1 : fs.read forestFile = some sheets)
    (h2 : fs.read grasslandFile = none) :
    load_and_combine_data folder fs =
      load_and_combine_data folder
        ⟨fun f => if f = forestFile then some sheets else none⟩ := by
  unfold load_and_combine_data excelFiles loadOne
  simp only [List.map_cons, List.map_nil]
  rw [h1, h2]
  have e2 : ¬ (grasslandFile = forestFile) := by decide
  simp only [FS.read, if_pos rfl, if_neg e2]
  rfl

theorem grassland_diagnostic {folder : String} {fs : FS}
    (h2 : fs.read grasslandFile = none) :
    ("Error: Excel file " ++ grasslandFile ++ " not found at " ++
      folder ++ "/" ++ grasslandFile) ∈ (load_and_combine_data folder fs).2 := by
  unfold load_and_combine_data excelFiles loadOne
  simp only [List.map_cons, List.map_nil]
  rw [h2]
  cases fs.read forestFile <;> dsimp only <;> split <;> simp

theorem load_grassland_only {folder : String} {fs : FS}
    {sheets : List (String × DF)}
    (h1 : fs.read forestFile = none)
    (h2 : fs.read grasslandFile = some sheets) :
    load_and_combine_data folder fs =
      load_and_combine_data folder
        ⟨fun f => if f = grasslandFile then some sheets else none⟩ := by
  unfold load_and_combine_data excelFiles loadOne
  simp only [List.map_cons, List.map_nil]
  rw [h1, h2]
  have e1 : ¬ (forestFile = grasslandFile) := by decide
  simp only [FS.read, if_pos rfl, if_neg e1]
  rfl

theorem forest_diagnostic {folder : String} {fs : FS}
    (h1 : fs.read forestFile = none) :
    ("Error: Excel file " ++ forestFile ++ " not found at " ++
      folder ++ "/" ++ forestFile) ∈ (load_and_combine_data folder fs).2 := by
  unfold load_and_combine_data excelFiles loadOne
  simp only [List.map_cons, List.map_nil]
  rw [h1]
  cases fs.read grasslandFile <;> dsimp only <;> split <;> simp

theorem lookup_setTable (ts : List (String × DF)) (n : String) (d : DF) :
    List.lookup n (setTable ts n d) = some d := by
  induction ts with
  | nil => simp [setTable, List.lookup]
  | cons t rest ih =>
    by_cases h : t.1 = n
    · simp [setTable, h, List.lookup]
    · have hne : ¬ n = t.1 := fun e => h e.symm
      simp only [setTable, h, if_false]
      rw [List.lookup]
      simp only [show (n == t.1) = false by simp [hne]]
      exact ih

/-! ## Claim theorems -/

/-- C3: flag normalization maps case-insensitive TRUE to `true`,
case-insensitive FALSE to `false`, and every other token — including a
genuinely missing value — to `false`; the normalization is a total
function applied column-wise by the engine to the three flag columns. -/
theorem C3_bool_normalization :
    (∀ s, upperStr s = "TRUE" → cleanBool (Value.str s) = Value.bool true) ∧
    (∀ s, upperStr s = "FALSE" → cleanBool (Value.str s) = Value.bool false) ∧
    (∀ v, upperStr (astypeStr v) ≠ "TRUE" →
      upperStr (astypeStr v) ≠ "FALSE" → cleanBool v = Value.bool false) ∧
    cleanBool Value.missing = Value.bool false ∧
    (∀ df out, df.Wf → initial_data_cleaning df = some out → ∀ c ∈ boolCols,
      colVals out c =
        (colVals ⟨df.cols, dedupFirst df.rows⟩ c).map cleanBool) := by
  refine ⟨?_, ?_, ?_, by decide, ?_⟩
  · intro s h
    unfold cleanBool
    dsimp only
    rw [show astypeStr (Value.str s) = s from rfl, if_pos h]
  · intro s h
    unfold cleanBool
    dsimp only
    rw [show astypeStr (Value.str s) = s from rfl]
    rw [if_neg (by rw [h]; decide), if_pos h]
  · intro v h1 h2
    unfold cleanBool
    dsimp only
    rw [if_neg h1, if_neg h2]
  · intro df out hwf h c hc
    obtain ⟨hD, hout⟩ := initial_data_cleaning_eq_some.mp h
    rw [hout, colVals_cleanPipeline_bool (wf_dedupDF hwf) hc]

/-- Witness for C3 at concrete tokens. -/
theorem C3_witness :
    upperStr "true" = "TRUE" ∧
    cleanBool (Value.str "true") = Value.bool true ∧
    cleanBool (Value.str "maybe") = Value.bool false :=
  ⟨by decide, C3_bool_normalization.1 "true" (by decide),
   (C3_bool_normalization.2.2.1 (Value.str "maybe") (by decide) (by decide))⟩

/-- C4: date cleaning parses with the single fixed format and coerces
every failure to the explicit missing marker; any date it outputs is
traceable to its input (never a substituted default), and the map is a
total function applied to the whole `Date` column. -/
theorem C4_date_parsing :
    (∀ v, cleanDate v = Value.missing ∨
      ∃ d m y, cleanDate v = Value.date d m y ∧
        (v = Value.date d m y ∨
          ∃ s, v = Value.str s ∧ parseDMY s = some (d, m, y))) ∧
    (∀ s, parseDMY s = none → cleanDate (Value.str s) = Value.missing) ∧
    (∀ s d m y, parseDMY s = some (d, m, y) →
      cleanDate (Value.str s) = Value.date d m y) ∧
    (∀ df out, df.Wf → initial_data_cleaning df = some out →
      colVals out "Date" =
        (colVals ⟨df.cols, dedupFirst df.rows⟩ "Date").map cleanDate) := by
  refine ⟨?_, ?_, ?_, ?_⟩
  · intro v
    cases v with
    | str s =>
      cases h : parseDMY s with
      | none => exact Or.inl (by simp [cleanDate, h])
      | some t =>
        obtain ⟨d, m, y⟩ := t
        exact Or.inr ⟨d, m, y, by simp [cleanDate, h],
          Or.inr ⟨s, rfl, h⟩⟩
    | num q => exact Or.inl rfl
    | bool b => exact Or.inl rfl
    | date d m y => exact Or.inr ⟨d, m, y, rfl, Or.inl rfl⟩
    | missing => exact Or.inl rfl
  · intro s h
    simp [cleanDate, h]
  · intro s d m y h
    simp [cleanDate, h]
  · intro df out hwf h
    obtain ⟨hD, hout⟩ := initial_data_cleaning_eq_some.mp h
    rw [hout, colVals_cleanPipeline_date (wf_dedupDF hwf)]

/-- Witness for C4 at a parse failure and a parse success. -/
theorem C4_witness :
    cleanDate (Value.str "not-a-date") = Value.missing ∧
    cleanDate (Value.str "25-01-2023") = Value.date 25 1 2023 :=
  ⟨C4_date_parsing.2.1 "not-a-date" (by decide),
   C4_date_parsing.2.2.1 "25-01-2023" 25 1 2023 (by decide)⟩

/-- C5: deduplication is exact full-row match — any row of the input
occurs exactly once after the engine's duplicate drop, and the engine's
row count equals the deduplicated row count; in the FOREST/UNIT1
scenario the loader yields 3 tagged rows and the engine keeps 2. -/
theorem C5_exact_dedup (rows : List (List Value)) (r : List Value)
    (hr : r ∈ rows) :
    @List.count (List Value) instBEqOfDecidableEq r (dedupFirst rows) = 1 ∧
    (∀ df out : DF, initial_data_cleaning df = some out →
      out.rows.length = (dedupFirst df.rows).length) ∧
    (load_and_combine_data "." fs5).1.rows.length = 3 ∧
    colVals (load_and_combine_data "." fs5).1 "Location_Type" =
      [Value.str "Forest", Value.str "Forest", Value.str "Forest"] ∧
    colVals (load_and_combine_data "." fs5).1 "Admin_Unit_Code" =
      [Value.str "UNIT1", Value.str "UNIT1", Value.str "UNIT1"] ∧
    (initial_data_cleaning (load_and_combine_data "." fs5).1).map
      (fun o => o.rows.length) = some 2 := by
  refine ⟨dedupFirst_count_one hr, ?_, by decide, by decide, by decide, by decide⟩
  intro df out h
  obtain ⟨hD, hout⟩ := initial_data_cleaning_eq_some.mp h
  rw [hout, rows_length_cleanPipeline]

/-- Witness for C5 at the scenario sheet. -/
theorem C5_witness :
    @List.count (List Value) instBEqOfDecidableEq
      [Value.str "01-01-2023", Value.str "Crow"] (dedupFirst sheet5.rows) = 1 :=
  (C5_exact_dedup sheet5.rows
    [Value.str "01-01-2023", Value.str "Crow"] (by decide)).1

/-- C6 counterexample: cleaning is not idempotent.  Two raw rows that
differ only in flag capitalization survive the initial duplicate drop,
are normalized to identical rows, and a second run deduplicates them:
running the engine on its own output changes the table. -/
theorem C6_counterexample :
    (initial_data_cleaning cex6).bind initial_data_cleaning ≠
      initial_data_cleaning cex6 := by decide

/-- C6 amended: the engine is idempotent on every input whose cleaned
output is free of duplicate rows — value normalization after the
duplicate drop is the only source of non-idempotence. -/
theorem C6_amended_idempotent (df out : DF) (hwf : df.Wf)
    (h : initial_data_cleaning df = some out) (hnd : out.rows.Nodup) :
    initial_data_cleaning out = some out := by
  obtain ⟨hD, hout⟩ := initial_data_cleaning_eq_some.mp h
  have hwf1 : (⟨df.cols, dedupFirst df.rows⟩ : DF).Wf := wf_dedupDF hwf
  have hD1 : "Date" ∈ (⟨df.cols, dedupFirst df.rows⟩ : DF).cols := hD
  apply initial_data_cleaning_eq_some.mpr
  constructor
  · rw [hout, cols_cleanPipeline hD1]
    split
    · exact hD
    · simp [hD]
  · show out = cleanPipeline ⟨out.cols, dedupFirst out.rows⟩
    rw [dedupFirst_of_nodup hnd]
    rw [show (⟨out.cols, out.rows⟩ : DF) = out from rfl]
    rw [hout]
    exact (cleanPipeline_idem hwf1 hD1).symm

/-- Witness for C6 at a table whose cleaned output has no duplicates. -/
theorem C6_witness :
    initial_data_cleaning w6df = some w6out ∧
    w6out.rows.Nodup ∧
    initial_data_cleaning w6out = some w6out :=
  ⟨by decide, by decide,
   C6_amended_idempotent w6df w6out (by decide) (by decide) (by decide)⟩

/-- C7: every declared source file that is missing is skipped with its
not-found diagnostic, and the loader — a total function, so nothing is
raised — continues with the remaining sources: with the GRASSLAND file
absent its result coincides with loading from a filesystem holding only
the FOREST data, and with the FOREST file absent it coincides with
loading from a filesystem holding only the GRASSLAND data. -/
theorem C7_missing_source_skipped (folder : String) (fs : FS) :
    (∀ p ∈ excelFiles, fs.read p.2 = none →
      ("Error: Excel file " ++ p.2 ++ " not found at " ++
        folder ++ "/" ++ p.2) ∈ (load_and_combine_data folder fs).2) ∧
    (∀ sheets, fs.read forestFile = some sheets →
      fs.read grasslandFile = none →
      load_and_combine_data folder fs =
        load_and_combine_data folder
          ⟨fun f => if f = forestFile then some sheets else none⟩) ∧
    (∀ sheets, fs.read forestFile = none →
      fs.read grasslandFile = some sheets →
      load_and_combine_data folder fs =
        load_and_combine_data folder
          ⟨fun f => if f = grasslandFile then some sheets else none⟩) := by
  refine ⟨?_, fun sheets h1 h2 => load_forest_only h1 h2,
    fun sheets h1 h2 => load_grassland_only h1 h2⟩
  intro p hp hnone
  have hcases : p = ("FOREST", forestFile) ∨ p = ("GRASSLAND", grasslandFile) := by
    simpa [excelFiles] using hp
  rcases hcases with rfl | rfl
  · exact forest_diagnostic hnone
  · exact grassland_diagnostic hnone

/-- Witness for C7: both declared files exercised — the FOREST-only
filesystem misses GRASSLAND and the GRASSLAND-only filesystem misses
FOREST; each yields its diagnostic and the remaining-source result. -/
theorem C7_witness :
    ("Error: Excel file " ++ forestFile ++ " not found at " ++
      "." ++ "/" ++ forestFile) ∈ (load_and_combine_data "." fs7).2 ∧
    ("Error: Excel file " ++ grasslandFile ++ " not found at " ++
      "." ++ "/" ++ grasslandFile) ∈ (load_and_combine_data "." fs5).2 ∧
    load_and_combine_data "." fs5 =
      load_and_combine_data "."
        ⟨fun f => if f = forestFile then some [("UNIT1", sheet5)] else none⟩ ∧
    load_and_combine_data "." fs7 =
      load_and_combine_data "."
        ⟨fun f => if f = grasslandFile then some [("UNIT1", sheet5)] else none⟩ :=
  ⟨(C7_missing_source_skipped "." fs7).1 ("FOREST", forestFile)
      (by decide) (by decide),
   (C7_missing_source_skipped "." fs5).1 ("GRASSLAND", grasslandFile)
      (by decide) (by decide),
   (C7_missing_source_skipped "." fs5).2.1 [("UNIT1", sheet5)]
      (by decide) (by decide),
   (C7_missing_source_skipped "." fs7).2.2 [("UNIT1", sheet5)]
      (by decide) (by decide)⟩

/-- C8: with zero source files found, the loader yields the empty table
and the driver terminates at the explicit no-data signal — cleaning and
upload are never reached, so nothing downstream can crash. -/
theorem C8_empty_input_terminal (folder : String) (fs : FS) (db : Db)
    (h1 : fs.read forestFile = none) (h2 : fs.read grasslandFile = none) :
    (load_and_combine_data folder fs).1 = ⟨[], []⟩ ∧
    runPipeline folder fs db = RunResult.noData := by
  have hl := @load_empty_of_missing folder fs h1 h2
  constructor
  · rw [hl]
  · unfold runPipeline
    rw [hl]
    rfl

/-- Witness for C8 at the empty filesystem. -/
theorem C8_witness :
    (load_and_combine_data "." fsEmpty).1 = ⟨[], []⟩ ∧
    runPipeline "." fsEmpty dbUp = RunResult.noData :=
  C8_empty_input_terminal "." fsEmpty dbUp rfl rfl

/-- C9: the sink makes exactly one write attempt; on success it binds
the table name to the cleaned table, replacing any prior content; on
failure the store is untouched and the fixed diagnostics are reported,
with the connection target shown but the password redacted; and the CSV
backup produced by the driver does not depend on the store at all. -/
theorem C9_sink_replace_and_redact (df : DF) (db : Db) :
    (upload_to_sql df db).attempts = 1 ∧
    (db.reachable = true →
      List.lookup "bird_observations" (upload_to_sql df db).db.tables =
        some df) ∧
    (db.reachable = false →
      (upload_to_sql df db).db = db ∧
      (upload_to_sql df db).messages = uploadFailMessages) ∧
    (∀ m ∈ uploadFailMessages, strContains m pgPassword = false) ∧
    strContains (uploadFailMessages.getD 2 "") "*****" = true ∧
    strContains (uploadFailMessages.getD 2 "") redactedTarget = true ∧
    (∀ folder fs (db₁ db₂ : Db) c₁ d₁ c₂ d₂,
      runPipeline folder fs db₁ = RunResult.done c₁ d₁ →
      runPipeline folder fs db₂ = RunResult.done c₂ d₂ → c₁ = c₂) := by
  refine ⟨?_, ?_, ?_, by decide, by decide, by decide, ?_⟩
  · unfold upload_to_sql
    split <;> rfl
  · intro h
    unfold upload_to_sql
    rw [if_pos h]
    exact lookup_setTable db.tables "bird_observations" df
  · intro h
    unfold upload_to_sql
    rw [if_neg (by simp [h])]
    exact ⟨rfl, rfl⟩
  · intro folder fs db₁ db₂ c₁ d₁ c₂ d₂ hr₁ hr₂
    unfold runPipeline at hr₁ hr₂
    by_cases he : ((load_and_combine_data folder fs).1).isEmpty
    · rw [if_pos he] at hr₁
      exact absurd hr₁ (by simp)
    · rw [if_neg he] at hr₁ hr₂
      cases hcln : initial_data_cleaning (load_and_combine_data folder fs).1 with
      | none =>
        rw [hcln] at hr₁
        exact absurd hr₁ (by simp)
      | some cleaned =>
        rw [hcln] at hr₁ hr₂
        simp only [RunResult.done.injEq] at hr₁ hr₂
        rw [← hr₁.1, ← hr₂.1]

/-- Witness for C9 at a reachable and an unreachable store. -/
theorem C9_witness :
    List.lookup "bird_observations" (upload_to_sql wdf dbUp).db.tables =
      some wdf ∧
    (upload_to_sql wdf dbDown).db = dbDown ∧
    (upload_to_sql wdf dbDown).messages = uploadFailMessages :=
  ⟨(C9_sink_replace_and_redact wdf dbUp).2.1 rfl,
   ((C9_sink_replace_and_redact wdf dbDown).2.2.1 rfl).1,
   ((C9_sink_replace_and_redact wdf dbDown).2.2.1 rfl).2⟩

/-- C10: the engine succeeds exactly on tables that have a `Date`
column — the unguarded `df[Date]` access is its only failure mode, and
in particular it fails on the column-less empty table the loader
returns when zero files are found. -/
theorem C10_date_precondition :
    (∀ df : DF, (initial_data_cleaning df).isSome ↔ "Date" ∈ df.cols) ∧
    initial_data_cleaning ⟨[], []⟩ = none ∧
    (load_and_combine_data "." fsEmpty).1 = ⟨[], []⟩ := by
  refine ⟨fun df => initial_data_cleaning_isSome_iff, by decide, ?_⟩
  rw [load_empty_of_missing rfl rfl]

/-- Witness for C10: the precondition is satisfiable and violable. -/
theorem C10_witness :
    (initial_data_cleaning w6df).isSome = true ∧
    (initial_data_cleaning wdf).isSome = false :=
  ⟨(C10_date_precondition.1 w6df).mpr (by decide), by decide⟩

/-! ## C1 and C2 -/

theorem numericNormCol_not_missing {c : String} {l : List Value} :
    ∀ v ∈ numericNormCol c l, v ≠ Value.missing := by
  intro v hv
  unfold numericNormCol at hv
  split at hv
  · simp only [List.mem_map] at hv
    obtain ⟨u, _, rfl⟩ := hv
    obtain ⟨n, hn⟩ := countNorm_int u
    simp [hn]
  · split at hv
    · simp only [List.mem_map] at hv
      obtain ⟨u, _, rfl⟩ := hv
      obtain ⟨n, hn⟩ := codeNorm_int u
      simp [hn]
    · obtain ⟨q, hq⟩ := contNormCol_mem_num v hv
      simp [hq]

/-- C1 counterexample: a missing-value representation survives cleaning.
An unparseable date cell is coerced to the explicit missing marker, so
the cleaned table's `Date` column still holds a missing value. -/
theorem C1_counterexample :
    (initial_data_cleaning c1df).map (fun o => colVals o "Date") =
      some [Value.missing] := by decide

/-- C1 amended: after cleaning, every value of the three flag columns,
of the six numeric columns, and of the sixteen categorical columns is
non-null, and so is the derived `Year` column; only the `Date` column
(and columns outside the engine's fixed lists) can retain a missing
value. -/
theorem C1_handled_columns_nonnull (df out : DF) (hwf : df.Wf)
    (h : initial_data_cleaning df = some out) :
    (∀ c ∈ boolCols, ∀ v ∈ colVals out c, v ≠ Value.missing) ∧
    (∀ c ∈ numericCols, ∀ v ∈ colVals out c, v ≠ Value.missing) ∧
    (∀ c ∈ categoricalCols, ∀ v ∈ colVals out c, v ≠ Value.missing) ∧
    ("Year" ∉ df.cols → ∀ v ∈ colVals out "Year", v ≠ Value.missing) := by
  obtain ⟨hD, hout⟩ := initial_data_cleaning_eq_some.mp h
  have hwf1 : (⟨df.cols, dedupFirst df.rows⟩ : DF).Wf := wf_dedupDF hwf
  refine ⟨?_, ?_, ?_, ?_⟩
  · intro c hc v hv
    rw [hout, colVals_cleanPipeline_bool hwf1 hc] at hv
    simp only [List.mem_map] at hv
    obtain ⟨u, _, rfl⟩ := hv
    obtain ⟨b, hb⟩ := cleanBool_is_bool u
    simp [hb]
  · intro c hc v hv
    rw [hout, colVals_cleanPipeline_numeric hwf1 hc] at hv
    exact numericNormCol_not_missing v hv
  · intro c hc v hv
    rw [hout, colVals_cleanPipeline_categorical hwf1 hc] at hv
    simp only [List.mem_map] at hv
    obtain ⟨u, _, rfl⟩ := hv
    exact fillna_not_missing (by simp)
  · intro hY v hv
    rw [hout, colVals_cleanPipeline_year hwf1 hY hD] at hv
    simp only [List.mem_map] at hv
    obtain ⟨u, _, rfl⟩ := hv
    cases u <;> simp [yearOf]

/-- Witness for C1 at the unparseable-date table. -/
theorem C1_witness :
    DF.Wf c1df ∧
    ((∀ c ∈ boolCols, ∀ v ∈ colVals c1out c, v ≠ Value.missing) ∧
     (∀ c ∈ numericCols, ∀ v ∈ colVals c1out c, v ≠ Value.missing) ∧
     (∀ c ∈ categoricalCols, ∀ v ∈ colVals c1out c, v ≠ Value.missing) ∧
     ("Year" ∉ c1df.cols → ∀ v ∈ colVals c1out "Year", v ≠ Value.missing)) :=
  ⟨by decide, C1_handled_columns_nonnull c1df c1out (by decide) (by decide)⟩

theorem filterMap_numOf_toNumericV (l : List Value) :
    (l.map toNumericV).filterMap numOf? = l.filterMap toNumeric? := by
  induction l with
  | nil => rfl
  | cons v rest ih =>
    cases hv : toNumeric? v with
    | none =>
      have h1 : toNumericV v = Value.missing := by unfold toNumericV; rw [hv]
      simp [h1, hv, numOf?, ih]
    | some q =>
      have h1 : toNumericV v = Value.num q := by unfold toNumericV; rw [hv]
      simp [h1, hv, numOf?, ih]

/-- C2: numeric coercion follows the column's role — unparseable
count/visit cells become `0`, unparseable code cells become `-1`,
continuous columns are filled with the column's mean of parseable
values (or `0` when nothing parses), the fill constant being exactly
the mean of the parseable values; in the scenario with temperatures
`N/A`, 10 and 20 the cleaned value is `15`. -/
theorem C2_numeric_role_coercion :
    (∀ v, toNumeric? v = none → countNorm v = Value.num 0) ∧
    (∀ v, toNumeric? v = none → codeNorm v = Value.num (-1)) ∧
    (∀ l : List Value, colMean (l.map toNumericV) =
      (l.filterMap toNumeric?).sum /
        ((l.filterMap toNumeric?).length : ℚ)) ∧
    (∀ df out, df.Wf → initial_data_cleaning df = some out →
      (∀ c, c = "Initial_Three_Min_Cnt" ∨ c = "Visit" →
        colVals out c =
          (colVals ⟨df.cols, dedupFirst df.rows⟩ c).map countNorm) ∧
      (∀ c, c = "AcceptedTSN" ∨ c = "AOU_Code" →
        colVals out c =
          (colVals ⟨df.cols, dedupFirst df.rows⟩ c).map codeNorm) ∧
      (∀ c, c = "Temperature" ∨ c = "Humidity" →
        colVals out c =
          contNormCol (colVals ⟨df.cols, dedupFirst df.rows⟩ c))) ∧
    (initial_data_cleaning scenario2).map (fun o => colVals o "Temperature") =
      some [Value.num 15, Value.num 10, Value.num 20] := by
  refine ⟨?_, ?_, ?_, ?_, ?_⟩
  · intro v h
    unfold countNorm toNumericV
    rw [h]
    show intCast (fillna (Value.num 0) Value.missing) = Value.num 0
    rw [show fillna (Value.num 0) Value.missing = Value.num 0 from rfl]
    show Value.num (ratTrunc 0) = Value.num 0
    norm_num [ratTrunc]
  · intro v h
    unfold codeNorm toNumericV
    rw [h]
    show intCast (fillna (Value.num (-1)) Value.missing) = Value.num (-1)
    rw [show fillna (Value.num (-1)) Value.missing = Value.num (-1) from rfl]
    show Value.num (ratTrunc (-1)) = Value.num (-1)
    rw [show ((-1 : ℚ)) = (((-1 : ℤ) : ℤ) : ℚ) by norm_num, ratTrunc_intCast]
  · intro l
    unfold colMean
    rw [filterMap_numOf_toNumericV]
  · intro df out hwf h
    obtain ⟨hD, hout⟩ := initial_data_cleaning_eq_some.mp h
    have hwf1 : (⟨df.cols, dedupFirst df.rows⟩ : DF).Wf := wf_dedupDF hwf
    refine ⟨?_, ?_, ?_⟩
    · intro c hc
      have hmem : c ∈ numericCols := by
        rcases hc with rfl | rfl <;> decide
      rw [hout, colVals_cleanPipeline_numeric hwf1 hmem]
      unfold numericNormCol
      rw [if_pos hc]
    · intro c hc
      have hmem : c ∈ numericCols := by
        rcases hc with rfl | rfl <;> decide
      have hnc : ¬(c = "Initial_Three_Min_Cnt" ∨ c = "Visit") := by
        rcases hc with rfl | rfl <;> decide
      rw [hout, colVals_cleanPipeline_numeric hwf1 hmem]
      unfold numericNormCol
      rw [if_neg hnc, if_pos hc]
    · intro c hc
      have hmem : c ∈ numericCols := by
        rcases hc with rfl | rfl <;> decide
      have hnc : ¬(c = "Initial_Three_Min_Cnt" ∨ c = "Visit") := by
        rcases hc with rfl | rfl <;> decide
      have hnc2 : ¬(c = "AcceptedTSN" ∨ c = "AOU_Code") := by
        rcases hc with rfl | rfl <;> decide
      rw [hout, colVals_cleanPipeline_numeric hwf1 hmem]
      unfold numericNormCol
      rw [if_neg hnc, if_neg hnc2]
  · have base : (initial_data_cleaning scenario2).map
        (fun o => colVals o "Temperature") =
        some [Value.num (colMean [Value.missing, Value.num 10, Value.num 20]),
          Value.num 10, Value.num 20] := rfl
    have hm : colMean [Value.missing, Value.num 10, Value.num 20] = 15 := by
      norm_num [colMean, numOf?, List.filterMap_cons]
    rw [hm] at base
    exact base

/-- Witness for C2 at concrete cells and the scenario hypotheses. -/
theorem C2_witness :
    toNumeric? (Value.str "No data") = none ∧
    countNorm (Value.str "No data") = Value.num 0 ∧
    codeNorm (Value.str "No data") = Value.num (-1) :=
  ⟨by decide,
   C2_numeric_role_coercion.1 (Value.str "No data") (by decide),
   C2_numeric_role_coercion.2.1 (Value.str "No data") (by decide)⟩

end BirdPipeline
